import Mathlib

/-!
Shallow embedding of the `rtutil` repository (circular_buffer.hh,
play_audio_file.cc, record_audio_file.cc) and verification of the
frozen claims about it.

Machine integers: `std::size_t` is modelled as `Nat`, restricted to
`< 2 ^ 64` where a claim quantifies over the whole type; the one place
where the C++ arithmetic can overflow a 64-bit word (the left shift in
`next_pow2`) carries an explicit `% 2 ^ 64`.

Sample values: the element type of the circular buffer is a type
parameter `α` (the C++ class is a template); the audio code instantiates
it with `float`, but no arithmetic is ever performed on samples — they
are only copied or replaced by the zero value that `std::vector`
value-initialisation and the silence fill both produce — so `α` with an
`Inhabited` instance (`default` playing the role of `0.0F`) is a
faithful model.
-/

/-- `is_pow2` from circular_buffer.hh: `z > 0 && (z & (z - 1)) == 0`. -/
def is_pow2 (z : Nat) : Bool :=
  if z > 0 then (z &&& (z - 1)) == 0 else false

/-- Number of value bits of `std::size_t` (64-bit target),
`std::numeric_limits<std::size_t>::digits`. -/
def n_bits : Nat := 64

/-- `std::countl_zero` on a 64-bit operand: number of leading zero bits. -/
def countl_zero64 (z : Nat) : Nat :=
  if z = 0 then n_bits else n_bits - (Nat.log2 z + 1)

/-- `next_pow2` from circular_buffer.hh.  The C++20 branch computes
`lg2 = (n_bits - 1) - countl_zero(z)` and returns `size_t(1) << (lg2 + 1)`;
the shift is 64-bit machine arithmetic, hence the `% 2 ^ 64`. -/
def next_pow2 (z : Nat) : Nat :=
  if z ≤ 2 then 2
  else if is_pow2 z then z
  else
    let lg2 := (n_bits - 1) - countl_zero64 z
    (1 <<< (lg2 + 1)) % 2 ^ 64

/-- State of `CircularBuffer<DataType>`: the backing `std::vector` and the
two head indices (the `std::atomic` wrappers only matter for concurrent
interleavings; each claim is about one call at a time). -/
structure CircularBuffer (α : Type) where
  buffer : List α
  read_head : Nat
  write_head : Nat
deriving Repr, DecidableEq

namespace CircularBuffer

/-- `capacity()` is `buffer_.size()`. -/
def capacity (cb : CircularBuffer α) : Nat := cb.buffer.length

/-- `CircularBuffer::compute_read_available`, verbatim from the source:
`write_head > read_head ? write_head - read_head
                        : (capacity - write_head + read_head) & mask`. -/
def compute_read_available (read_head write_head capacity : Nat) : Nat :=
  let mask := capacity - 1
  if write_head > read_head then
    write_head - read_head
  else
    (capacity - write_head + read_head) &&& mask

/-- `CircularBuffer::compute_write_available`:
`capacity - compute_read_available(...) - 1`. -/
def compute_write_available (read_head write_head capacity : Nat) : Nat :=
  capacity - compute_read_available read_head write_head capacity - 1

/-- `get_read_available()`. -/
def get_read_available (cb : CircularBuffer α) : Nat :=
  compute_read_available cb.read_head cb.write_head cb.capacity

/-- `get_write_available()`. -/
def get_write_available (cb : CircularBuffer α) : Nat :=
  compute_write_available cb.read_head cb.write_head cb.capacity

/-- Overwrite `buf[pos], buf[pos+1], ...` with the elements of `seg`:
the effect of `std::copy(seg_begin, seg_end, buf_begin + pos)` on the
backing vector (all uses below stay within the bounds of `buf`). -/
def listStore (buf : List α) (pos : Nat) (seg : List α) : List α :=
  buf.take pos ++ seg ++ buf.drop (pos + seg.length)

/-- Result of `dequeue`: the returned element count, the contents written
to `dst[0..count)`, and the state after the call. -/
structure DeqResult (α : Type) where
  count : Nat
  out : List α
  state : CircularBuffer α
deriving Repr, DecidableEq

/-- `CircularBuffer::dequeue(dst, size)`, line by line from the source.
The high-segment copy `std::copy(buf_begin + read_start, buf_end, dst)`
writes `drop read_start`; the low segment appends `take cnt_lo`. -/
def dequeue (cb : CircularBuffer α) (size : Nat) : DeqResult α :=
  let read_start := cb.read_head
  let write_start := cb.write_head
  let ring_size := cb.capacity
  let ring_mask := ring_size - 1
  let read_available := compute_read_available read_start write_start ring_size
  let read_size := min size read_available
  let read_end := read_start + read_size
  let cnt_lo := read_end &&& ring_mask
  let out :=
    if read_end > ring_size then
      (cb.buffer.drop read_start) ++ (cb.buffer.take cnt_lo)
    else
      (cb.buffer.drop read_start).take read_size
  { count := read_size
    out := out
    state := { cb with read_head := cnt_lo } }

/-- Result of `enqueue`: the returned element count and the state after
the call. -/
structure EnqResult (α : Type) where
  count : Nat
  state : CircularBuffer α
deriving Repr, DecidableEq

/-- `CircularBuffer::enqueue(src, size)`, line by line from the source.
The straddling branch copies `src[0..cnt_hi)` to `buffer + write_start`
and `src[cnt_hi..write_size)` to the start of the buffer. -/
def enqueue (cb : CircularBuffer α) (src : List α) (size : Nat) : EnqResult α :=
  let read_start := cb.read_head
  let write_start := cb.write_head
  let ring_size := cb.capacity
  let ring_mask := ring_size - 1
  let write_available := compute_write_available read_start write_start ring_size
  let write_size := min size write_available
  let write_end := write_start + write_size
  let cnt_hi := ring_size - write_start
  let cnt_lo := write_end &&& ring_mask
  let buf :=
    if write_end > ring_size then
      listStore (listStore cb.buffer write_start (src.take cnt_hi)) 0
        ((src.drop cnt_hi).take (write_size - cnt_hi))
    else
      listStore cb.buffer write_start (src.take write_size)
  { count := write_size
    state := { buffer := buf, read_head := cb.read_head, write_head := cnt_lo } }

/-- The constructor `CircularBuffer(capacity)`:
`buffer_(next_pow2(capacity)), read_head_{0}, write_head_{0}`
(the `std::vector` size constructor value-initialises the elements). -/
def construct (α : Type) [Inhabited α] (capacity : Nat) : CircularBuffer α :=
  { buffer := List.replicate (next_pow2 capacity) default
    read_head := 0
    write_head := 0 }

/-- Indices of the backing vector read by `dequeue(dst, size)`:
`[read_start, ring_size)` then `[0, cnt_lo)` when the span straddles the
end of the vector, `[read_start, read_start + read_size)` otherwise. -/
def dequeueAccessIndices (cb : CircularBuffer α) (size : Nat) : List Nat :=
  let read_start := cb.read_head
  let write_start := cb.write_head
  let ring_size := cb.capacity
  let ring_mask := ring_size - 1
  let read_available := compute_read_available read_start write_start ring_size
  let read_size := min size read_available
  let read_end := read_start + read_size
  let cnt_lo := read_end &&& ring_mask
  if read_end > ring_size then
    List.range' read_start (ring_size - read_start) ++ List.range' 0 cnt_lo
  else
    List.range' read_start read_size

/-- Indices of the backing vector written by `enqueue(src, size)`:
`[write_start, write_start + cnt_hi)` then `[0, write_size - cnt_hi)` when
the span straddles, `[write_start, write_start + write_size)` otherwise. -/
def enqueueAccessIndices (cb : CircularBuffer α) (size : Nat) : List Nat :=
  let read_start := cb.read_head
  let write_start := cb.write_head
  let ring_size := cb.capacity
  let write_available := compute_write_available read_start write_start ring_size
  let write_size := min size write_available
  let write_end := write_start + write_size
  let cnt_hi := ring_size - write_start
  if write_end > ring_size then
    List.range' write_start cnt_hi ++ List.range' 0 (write_size - cnt_hi)
  else
    List.range' write_start write_size

/-- States reachable from a freshly constructed buffer by any sequence of
`enqueue` / `dequeue` calls (the single-producer / single-consumer
discipline: each call runs atomically on the state).  The requested
capacity is bounded by `2 ^ 63` so that the constructor's `next_pow2`
does not overflow the 64-bit word (a larger `std::vector<float>` is not
allocatable anyway). -/
inductive Reachable {α : Type} [Inhabited α] : CircularBuffer α → Prop where
  | init (capacity : Nat) (hcap : capacity ≤ 2 ^ 63) :
      Reachable (construct α capacity)
  | enq (cb : CircularBuffer α) (src : List α) (size : Nat) :
      Reachable cb → Reachable (cb.enqueue src size).state
  | deq (cb : CircularBuffer α) (size : Nat) :
      Reachable cb → Reachable (cb.dequeue size).state

/-- Structural well-formedness maintained by every reachable state: the
backing vector's length is a power of two (at least 2) and both heads
are strictly inside it. -/
def Valid (cb : CircularBuffer α) : Prop :=
  (∃ n : Nat, 1 ≤ n ∧ cb.buffer.length = 2 ^ n) ∧
    cb.read_head < cb.buffer.length ∧ cb.write_head < cb.buffer.length

end CircularBuffer

/-- `PlaybackProcess::BUFFER_FACTOR`. -/
def BUFFER_FACTOR : Nat := 4

/-- State of `PlaybackProcess` relevant to its callback: the ring buffer,
the (constant) channel count of the file, and `io_counter_`. -/
structure PlaybackState (α : Type) where
  circ : CircularBuffer α
  channels : Nat
  io_counter : Nat
deriving Repr

/-- `PlaybackProcess::read_frames(output, frames)` from play_audio_file.cc,
run on each playback callback.  Returns the contents written to
`output[0 .. frames*channels)` and the state after the call.  `default`
stands for the literal `0.0F` of the silence fill.  `lock_ok` is the
outcome of `file_io_lock_.try_lock()` (the audio thread races the IO
thread for it); it only affects `io_counter_` and the condition-variable
notification, which carries no data. -/
def PlaybackState.read_frames [Inhabited α] (st : PlaybackState α)
    (frames : Nat) (lock_ok : Bool) : List α × PlaybackState α :=
  let channels := st.channels
  let read_available := st.circ.get_read_available
  let data_needed := frames * channels
  let (output, circ) :=
    if read_available > data_needed then
      let r := st.circ.dequeue data_needed
      (r.out, r.state)
    else
      (List.replicate data_needed default, st.circ)
  let io_counter :=
    if st.io_counter ≥ BUFFER_FACTOR * 3 / 4 && lock_ok then 0
    else st.io_counter + 1
  (output, { circ := circ, channels := channels, io_counter := io_counter })

/-- Events emitted by the playback file-IO loop (`PlaybackProcess::start`):
a `file_.readf` call that returned `r` frames, an `enqueue` of `len`
samples into the ring buffer, and a `request_data_.wait(lock)`. -/
inductive PbEvent where
  | read (r : Nat)
  | enq (len : Nat)
  | wait
deriving Repr, DecidableEq

/-- The `for (;;)` loop of `PlaybackProcess::start`, as the trace of IO
events it emits.  `frames` is the constant frame count requested from
`file_.readf`; `channels` the file's channel count.  The loop runs
concurrently with the audio callback, so the result of the guard
`get_write_available() > buffer_len` at the i-th iteration and the frame
count returned by the k-th `readf` call are oracles `avail` and `reads`.
Each iteration: if the guard holds, read, enqueue `read_frames*channels`
samples, and break when the read was short; any iteration that does not
break ends in `request_data_.wait(lock)`.  `fuel` bounds the number of
iterations modelled (the trace of a non-terminating run is its every
finite prefix). -/
def pbLoop (channels frames : Nat) (avail : Nat → Bool) (reads : Nat → Nat) :
    Nat → Nat → Nat → List PbEvent
  | 0, _, _ => []
  | fuel + 1, i, k =>
    if avail i then
      let r := reads k
      PbEvent.read r :: PbEvent.enq (r * channels) ::
        (if r < frames then []
         else PbEvent.wait :: pbLoop channels frames avail reads fuel (i + 1) (k + 1))
    else
      PbEvent.wait :: pbLoop channels frames avail reads fuel (i + 1) k

/-- Events emitted by the capture file-IO loop (`RecordProcess::start`):
a read of the guard `get_read_available() > buffer_len` with its outcome,
a `dequeue` of `len` samples, a `file_.writef` call that transferred `w`
frames, and a `data_ready_.wait(lock)`. -/
inductive RecEvent where
  | chk (avail : Bool)
  | deq (len : Nat)
  | write (w : Nat)
  | wait
deriving Repr, DecidableEq

/-- The `for (;;)` loop of `RecordProcess::start` followed by the
`data_ready_.wait(lock)` that sits after it, as the trace of IO events.
`buffer_len` is the staging buffer's length, `frames` the frame count
passed to `writef`.  `avail i` is the outcome of the guard at the i-th
iteration and `writes k` the frame count transferred by the k-th `writef`
(both oracles: the ring fills concurrently and the file may fail).  In
the source the loop body contains no wait: when the guard fails the loop
immediately re-checks, and the single `wait` is reached only after a
short write breaks out of the loop. -/
def recLoop (buffer_len frames : Nat) (avail : Nat → Bool) (writes : Nat → Nat) :
    Nat → Nat → Nat → List RecEvent
  | 0, _, _ => []
  | fuel + 1, i, k =>
    RecEvent.chk (avail i) ::
      (if avail i then
        RecEvent.deq buffer_len :: RecEvent.write (writes k) ::
          (if writes k < frames then [RecEvent.wait]
           else recLoop buffer_len frames avail writes fuel (i + 1) (k + 1))
      else recLoop buffer_len frames avail writes fuel (i + 1) k)

/-! ### Arithmetic and bit-twiddling lemmas -/

/-- Masking with `2 ^ n - 1` is reduction modulo `2 ^ n` — the identity the
source's comment appeals to ("the modulo operation can be replaced by a
bit-mask"). -/
theorem and_two_pow_sub_one (x n : Nat) : x &&& (2 ^ n - 1) = x % 2 ^ n := by
  apply Nat.eq_of_testBit_eq
  intro i
  rw [Nat.testBit_land, Nat.testBit_two_pow_sub_one, Nat.testBit_mod_two_pow]
  cases x.testBit i <;> simp

/-- Characterisation of `Nat.log2` by the enclosing powers of two. -/
theorem log2_eq_of {k m : Nat} (h1 : 2 ^ k ≤ m) (h2 : m < 2 ^ (k + 1)) :
    Nat.log2 m = k := by
  have hm : m ≠ 0 := by
    have : 0 < 2 ^ k := Nat.pos_pow_of_pos k (by norm_num)
    omega
  have hk : k ≤ Nat.log2 m := (Nat.le_log2 hm).mpr h1
  have hk2 : Nat.log2 m < k + 1 := (Nat.log2_lt hm).mpr h2
  omega

/-- A number in `[2 ^ k, 2 ^ (k + 1))` has bit `k` set. -/
theorem testBit_of_le_of_lt {m k : Nat} (h1 : 2 ^ k ≤ m) (h2 : m < 2 ^ (k + 1)) :
    m.testBit k = true := by
  rw [Nat.testBit_to_div_mod]
  have hd : m / 2 ^ k = 1 := by
    apply Nat.div_eq_of_lt_le (by omega)
    calc m < 2 ^ (k + 1) := h2
    _ = (1 + 1) * 2 ^ k := by ring
  simp [hd]

/-- The source predicate `is_pow2` recognises exactly the powers of two. -/
theorem is_pow2_eq_true_iff {z : Nat} : is_pow2 z = true ↔ ∃ n, z = 2 ^ n := by
  constructor
  · intro h
    unfold is_pow2 at h
    by_cases hz : z > 0
    · rw [if_pos hz] at h
      have hand : z &&& (z - 1) = 0 := by simpa using h
      refine ⟨Nat.log2 z, ?_⟩
      by_contra hne
      have h1 : 2 ^ Nat.log2 z ≤ z := Nat.log2_self_le (by omega)
      have h2 : z < 2 ^ (Nat.log2 z + 1) := Nat.lt_log2_self
      have hlt : 2 ^ Nat.log2 z < z := lt_of_le_of_ne h1 (fun he => hne he.symm)
      have hb1 : z.testBit (Nat.log2 z) = true := testBit_of_le_of_lt h1 h2
      have hb2 : (z - 1).testBit (Nat.log2 z) = true :=
        testBit_of_le_of_lt (by omega) (by omega)
      have : (z &&& (z - 1)).testBit (Nat.log2 z) = true := by
        rw [Nat.testBit_land, hb1, hb2]; rfl
      rw [hand, Nat.zero_testBit] at this
      exact Bool.false_ne_true this
    · rw [if_neg hz] at h
      exact absurd h Bool.false_ne_true
  · rintro ⟨n, rfl⟩
    unfold is_pow2
    rw [if_pos (Nat.pos_pow_of_pos n (by norm_num))]
    simp [and_two_pow_sub_one]

/-- Value of `next_pow2` on the non-trivial branch, for inputs whose
bit-length fits a 64-bit word. -/
theorem next_pow2_of_not_pow2 {z : Nat} (h2 : 2 < z) (hp : is_pow2 z = false)
    (hz : z < 2 ^ 64) :
    next_pow2 z = 2 ^ (Nat.log2 z + 1) % 2 ^ 64 := by
  have hz0 : z ≠ 0 := by omega
  have hlog : Nat.log2 z < 64 := (Nat.log2_lt hz0).mpr hz
  unfold next_pow2
  rw [if_neg (by omega), if_neg (by simp [hp])]
  have hcz : countl_zero64 z = 64 - (Nat.log2 z + 1) := by
    unfold countl_zero64
    rw [if_neg hz0]
    rfl
  have hbits : n_bits = 64 := rfl
  simp only [hcz, hbits]
  have hlg : 64 - 1 - (64 - (Nat.log2 z + 1)) = Nat.log2 z := by omega
  rw [hlg, Nat.shiftLeft_eq, one_mul]

/-! ### Lemmas about the backing-vector overwrite `listStore` -/

namespace CircularBuffer

theorem listStore_length {α : Type} (buf seg : List α) (pos : Nat)
    (h : pos + seg.length ≤ buf.length) :
    (listStore buf pos seg).length = buf.length := by
  simp only [listStore, List.length_append, List.length_take, List.length_drop]
  omega

theorem listStore_getElem_inside {α : Type} (buf seg : List α) (pos i : Nat)
    (h : pos + seg.length ≤ buf.length) (h2 : pos ≤ i) (h3 : i < pos + seg.length) :
    (listStore buf pos seg)[i]? = seg[i - pos]? := by
  unfold listStore
  have hpos : (buf.take pos).length = pos := by
    rw [List.length_take]; omega
  rw [List.append_assoc, List.getElem?_append_right (by omega), hpos,
    List.getElem?_append, if_pos (by omega)]

theorem listStore_getElem_outside {α : Type} (buf seg : List α) (pos i : Nat)
    (h : pos + seg.length ≤ buf.length) (hout : i < pos ∨ pos + seg.length ≤ i) :
    (listStore buf pos seg)[i]? = buf[i]? := by
  unfold listStore
  have hpos : (buf.take pos).length = pos := by
    rw [List.length_take]; omega
  rcases hout with hlt | hge
  · rw [List.append_assoc, List.getElem?_append, if_pos (by omega),
      List.getElem?_take, if_pos hlt]
  · rw [List.append_assoc, List.getElem?_append_right (by omega), hpos,
      List.getElem?_append_right (by omega), List.getElem?_drop]
    congr 1
    omega

/-! ### The structural invariant of the circular buffer -/

theorem compute_read_available_lt (read_head write_head capacity : Nat)
    (hcap : 1 ≤ capacity) (hw : write_head < capacity) :
    compute_read_available read_head write_head capacity < capacity := by
  unfold compute_read_available
  by_cases h : write_head > read_head
  · rw [if_pos h]; omega
  · rw [if_neg h]
    have := Nat.and_le_right (n := capacity - write_head + read_head)
      (m := capacity - 1)
    omega

theorem compute_write_available_lt (read_head write_head capacity : Nat)
    (hcap : 1 ≤ capacity) :
    compute_write_available read_head write_head capacity ≤ capacity - 1 := by
  unfold compute_write_available
  omega

/-- `next_pow2` of a requested capacity below the overflow threshold is a
power of two, at least 2, and at least the request. -/
theorem next_pow2_spec {z : Nat} (hz : z ≤ 2 ^ 63) :
    ∃ n, 1 ≤ n ∧ next_pow2 z = 2 ^ n ∧ z ≤ 2 ^ n := by
  by_cases h2 : z ≤ 2
  · refine ⟨1, le_refl 1, ?_, by omega⟩
    unfold next_pow2
    rw [if_pos h2]
    norm_num
  · by_cases hp : is_pow2 z = true
    · obtain ⟨n, rfl⟩ := is_pow2_eq_true_iff.mp hp
      have hn : 1 ≤ n := by
        by_contra hn
        have hn0 : n = 0 := by omega
        subst hn0
        norm_num at h2
      refine ⟨n, hn, ?_, le_refl _⟩
      unfold next_pow2
      rw [if_neg h2, if_pos hp]
    · have hplt : z < 2 ^ 63 := by
        rcases Nat.lt_or_ge z (2 ^ 63) with h | h
        · exact h
        · have hzp : z = 2 ^ 63 := by omega
          have : is_pow2 z = true := is_pow2_eq_true_iff.mpr ⟨63, hzp⟩
          exact absurd this hp
      have hzlt : z < 2 ^ 64 := by
        have : (2 : Nat) ^ 63 < 2 ^ 64 := by norm_num
        omega
      have hlog : Nat.log2 z < 63 := (Nat.log2_lt (by omega)).mpr hplt
      rw [next_pow2_of_not_pow2 (by omega) (by simp [hp]) hzlt]
      have hfit : (2 : Nat) ^ (Nat.log2 z + 1) < 2 ^ 64 :=
        Nat.pow_lt_pow_right (by norm_num) (by omega)
      rw [Nat.mod_eq_of_lt hfit]
      exact ⟨Nat.log2 z + 1, by omega, rfl, le_of_lt Nat.lt_log2_self⟩

theorem valid_construct {α : Type} [Inhabited α] (capacity : Nat)
    (hcap : capacity ≤ 2 ^ 63) : (construct α capacity).Valid := by
  obtain ⟨n, hn, hnp, -⟩ := next_pow2_spec hcap
  have hpos : 0 < 2 ^ n := Nat.pos_pow_of_pos n (by norm_num)
  exact ⟨⟨n, hn, by simp [construct, hnp]⟩, by simp [construct, hnp, hpos],
    by simp [construct, hnp, hpos]⟩

theorem dequeue_count {α : Type} (cb : CircularBuffer α) (size : Nat) :
    (cb.dequeue size).count =
      min size (compute_read_available cb.read_head cb.write_head cb.capacity) := rfl

theorem dequeue_state_buffer {α : Type} (cb : CircularBuffer α) (size : Nat) :
    (cb.dequeue size).state.buffer = cb.buffer := rfl

theorem dequeue_state_read_head {α : Type} (cb : CircularBuffer α) (size : Nat) :
    (cb.dequeue size).state.read_head =
      (cb.read_head + (cb.dequeue size).count) &&& (cb.capacity - 1) := rfl

theorem dequeue_state_write_head {α : Type} (cb : CircularBuffer α) (size : Nat) :
    (cb.dequeue size).state.write_head = cb.write_head := rfl

theorem enqueue_count {α : Type} (cb : CircularBuffer α) (src : List α) (size : Nat) :
    (cb.enqueue src size).count =
      min size (compute_write_available cb.read_head cb.write_head cb.capacity) := rfl

theorem enqueue_state_read_head {α : Type} (cb : CircularBuffer α) (src : List α)
    (size : Nat) : (cb.enqueue src size).state.read_head = cb.read_head := rfl

theorem enqueue_state_write_head {α : Type} (cb : CircularBuffer α) (src : List α)
    (size : Nat) :
    (cb.enqueue src size).state.write_head =
      (cb.write_head + (cb.enqueue src size).count) &&& (cb.capacity - 1) := rfl

theorem enqueue_state_buffer {α : Type} (cb : CircularBuffer α) (src : List α)
    (size : Nat) :
    (cb.enqueue src size).state.buffer =
      if cb.write_head + (cb.enqueue src size).count > cb.capacity then
        listStore (listStore cb.buffer cb.write_head
            (src.take (cb.capacity - cb.write_head))) 0
          ((src.drop (cb.capacity - cb.write_head)).take
            ((cb.enqueue src size).count - (cb.capacity - cb.write_head)))
      else
        listStore cb.buffer cb.write_head (src.take (cb.enqueue src size).count) := rfl

theorem valid_dequeue {α : Type} (cb : CircularBuffer α) (size : Nat)
    (hv : cb.Valid) : (cb.dequeue size).state.Valid := by
  obtain ⟨⟨n, hn, hlen⟩, hr, hw⟩ := hv
  have hpos : 0 < 2 ^ n := Nat.pos_pow_of_pos n (by norm_num)
  have hmask := Nat.and_le_right
    (n := cb.read_head + (cb.dequeue size).count) (m := cb.capacity - 1)
  refine ⟨⟨n, hn, ?_⟩, ?_, ?_⟩
  · rw [dequeue_state_buffer, hlen]
  · rw [dequeue_state_buffer, dequeue_state_read_head]
    simp only [capacity] at hmask ⊢
    omega
  · rw [dequeue_state_buffer, dequeue_state_write_head]
    omega

theorem enqueue_count_le {α : Type} (cb : CircularBuffer α) (src : List α)
    (size : Nat) : (cb.enqueue src size).count ≤ cb.capacity - 1 := by
  rw [enqueue_count]
  unfold compute_write_available
  omega

theorem valid_enqueue {α : Type} (cb : CircularBuffer α) (src : List α) (size : Nat)
    (hv : cb.Valid) : (cb.enqueue src size).state.Valid := by
  obtain ⟨⟨n, hn, hlen⟩, hr, hw⟩ := hv
  have hpos : 0 < 2 ^ n := Nat.pos_pow_of_pos n (by norm_num)
  have hcount := enqueue_count_le cb src size
  have hcap : cb.capacity = cb.buffer.length := rfl
  have hmask := Nat.and_le_right
    (n := cb.write_head + (cb.enqueue src size).count) (m := cb.capacity - 1)
  have hblen : (cb.enqueue src size).state.buffer.length = cb.buffer.length := by
    rw [enqueue_state_buffer]
    by_cases hs : cb.write_head + (cb.enqueue src size).count > cb.capacity
    · rw [if_pos hs]
      have h1len : (listStore cb.buffer cb.write_head
          (src.take (cb.capacity - cb.write_head))).length = cb.buffer.length := by
        apply listStore_length
        have := List.length_take_le (cb.capacity - cb.write_head) src
        omega
      rw [listStore_length, h1len]
      rw [h1len]
      have := List.length_take_le
        ((cb.enqueue src size).count - (cb.capacity - cb.write_head))
        (src.drop (cb.capacity - cb.write_head))
      omega
    · rw [if_neg hs]
      apply listStore_length
      have := List.length_take_le ((cb.enqueue src size).count) src
      omega
  refine ⟨⟨n, hn, by rw [hblen, hlen]⟩, ?_, ?_⟩
  · rw [hblen, enqueue_state_read_head]
    omega
  · rw [hblen, enqueue_state_write_head]
    simp only [capacity] at hmask ⊢
    omega

theorem reachable_valid {α : Type} [Inhabited α] {cb : CircularBuffer α}
    (h : cb.Reachable) : cb.Valid := by
  induction h with
  | init c hc => exact valid_construct c hc
  | enq cb src size _ ih => exact valid_enqueue cb src size ih
  | deq cb size _ ih => exact valid_dequeue cb size ih

theorem get_read_available_lt {α : Type} (cb : CircularBuffer α) (hv : cb.Valid) :
    cb.get_read_available < cb.capacity := by
  obtain ⟨⟨n, hn, hlen⟩, hr, hw⟩ := hv
  have hpos : 0 < 2 ^ n := Nat.pos_pow_of_pos n (by norm_num)
  exact compute_read_available_lt _ _ _ (by simp only [capacity]; omega)
    (by simp only [capacity]; omega)

end CircularBuffer

/-! ### Further facts about `next_pow2` on the overflow range -/

/-- No power of two lies strictly between `2 ^ 63` and `2 ^ 64`. -/
theorem not_pow2_of_between {z : Nat} (h1 : 2 ^ 63 < z) (h2 : z < 2 ^ 64) :
    is_pow2 z = false := by
  by_contra h
  have h' : is_pow2 z = true := by
    cases hh : is_pow2 z
    · exact absurd hh h
    · rfl
  obtain ⟨n, rfl⟩ := is_pow2_eq_true_iff.mp h'
  have hn1 : 63 < n := (Nat.pow_lt_pow_iff_right (by norm_num)).mp h1
  have hn2 : n < 64 := (Nat.pow_lt_pow_iff_right (by norm_num)).mp h2
  omega

/-- For a non-power-of-two request above `2 ^ 63` the 64-bit shift in
`next_pow2` overflows and the function returns 0. -/
theorem next_pow2_overflow {z : Nat} (h1 : 2 ^ 63 < z) (h2 : z < 2 ^ 64) :
    next_pow2 z = 0 := by
  have hp := not_pow2_of_between h1 h2
  have hlog : Nat.log2 z = 63 := log2_eq_of (by omega) (by norm_num; omega)
  have h3 : 2 < z := by
    have : (2 : Nat) < 2 ^ 63 := by norm_num
    omega
  rw [next_pow2_of_not_pow2 h3 hp h2, hlog]
  norm_num

/-! ### Claim theorems -/

/-- C1 — the claim fails on the code.  For capacity 4, the empty state
`read_head = write_head = 3` is reachable (enqueue 3, dequeue 3 from a
fresh buffer).  From it, enqueueing the 3 fresh values `[10, 20, 30]`
(the write span straddles the end of the storage array) and immediately
dequeueing 3 values returns only 1 element, `[10]`, instead of the
original sequence: `compute_read_available`'s wrap branch computes
`(capacity - write_head + read_head) & mask`, the distance from the
write head to the read head, instead of the readable distance
`(capacity - read_head + write_head) & mask`. -/
theorem claim_C1_roundtrip_fails :
    CircularBuffer.Reachable
      ((((CircularBuffer.construct Nat 4).enqueue [1, 2, 3] 3).state.dequeue 3).state) ∧
    ((((CircularBuffer.construct Nat 4).enqueue [1, 2, 3] 3).state.dequeue 3).state.read_head = 3 ∧
     (((CircularBuffer.construct Nat 4).enqueue [1, 2, 3] 3).state.dequeue 3).state.write_head = 3 ∧
     (((CircularBuffer.construct Nat 4).enqueue [1, 2, 3] 3).state.dequeue 3).state.get_read_available = 0 ∧
     (((CircularBuffer.construct Nat 4).enqueue [1, 2, 3] 3).state.dequeue 3).state.capacity = 4) ∧
    ((((CircularBuffer.construct Nat 4).enqueue [1, 2, 3] 3).state.dequeue 3).state.enqueue
        [10, 20, 30] 3).count = 3 ∧
    (((((CircularBuffer.construct Nat 4).enqueue [1, 2, 3] 3).state.dequeue 3).state.enqueue
        [10, 20, 30] 3).state.dequeue 3).count = 1 ∧
    (((((CircularBuffer.construct Nat 4).enqueue [1, 2, 3] 3).state.dequeue 3).state.enqueue
        [10, 20, 30] 3).state.dequeue 3).out = [10] := by
  refine ⟨?_, by decide, by decide, by decide, by decide⟩
  exact CircularBuffer.Reachable.deq _ 3
    (CircularBuffer.Reachable.enq _ [1, 2, 3] 3
      (CircularBuffer.Reachable.init 4 (by norm_num)))

/-- C5 — the claim fails on the code.  In `RecordProcess::start` the
`data_ready_.wait(lock)` sits after the `for (;;)` loop, not inside it:
when `read_available` does not exceed the staging buffer's length the
loop immediately re-checks availability without ever waiting.  Two
consecutive iterations with an insufficient guard emit two availability
checks and no wait event at all. -/
theorem claim_C5_recheck_without_wait :
    recLoop 4096 2048 (fun _ => false) (fun _ => 0) 2 0 0 =
      [RecEvent.chk false, RecEvent.chk false] ∧
    RecEvent.wait ∉ recLoop 4096 2048 (fun _ => false) (fun _ => 0) 2 0 0 := by
  decide

/-- C7 counterexample — `capacity_for` on the full 64-bit size type.  At
`requested = 2 ^ 63 + 1` the shift `1 << 64` wraps to 0: the result is
not a power of two and not ≥ requested. -/
theorem claim_C7_counterexample :
    next_pow2 (2 ^ 63 + 1) = 0 ∧
    ¬ (2 ^ 63 + 1 ≤ next_pow2 (2 ^ 63 + 1)) ∧
    is_pow2 (next_pow2 (2 ^ 63 + 1)) = false := by
  have h : next_pow2 (2 ^ 63 + 1) = 0 := next_pow2_overflow (by omega) (by norm_num)
  refine ⟨h, by rw [h]; omega, by rw [h]; rfl⟩

/-- C7 (amended: restricted to requests at most `2 ^ 63`, i.e. those whose
rounded-up capacity is representable in the 64-bit size type): the result
of `capacity_for` is a power of two, at least 2, and at least the
requested size. -/
theorem claim_C7_next_pow2_bounds (z : Nat) (hz : z ≤ 2 ^ 63) :
    (∃ n, 1 ≤ n ∧ next_pow2 z = 2 ^ n) ∧ z ≤ next_pow2 z ∧ 2 ≤ next_pow2 z := by
  obtain ⟨n, hn, hv, hle⟩ := CircularBuffer.next_pow2_spec hz
  have h2 : (2 : Nat) ^ 1 ≤ 2 ^ n := Nat.pow_le_pow_right (by norm_num) hn
  exact ⟨⟨n, hn, hv⟩, by omega, by omega⟩

/-- C7 witness: the amended theorem applied at the concrete request 5. -/
theorem claim_C7_next_pow2_bounds_witness :
    5 ≤ 2 ^ 63 ∧
      ((∃ n, 1 ≤ n ∧ next_pow2 5 = 2 ^ n) ∧ 5 ≤ next_pow2 5 ∧ 2 ≤ next_pow2 5) :=
  ⟨by norm_num, claim_C7_next_pow2_bounds 5 (by norm_num)⟩

/-- C6 counterexample — at `requested = 2 ^ 63 + 3` (not a power of two,
greater than 2) the highest set bit is at position `k = 63`, but the code
returns 0, not `2 ^ (k + 1)` and not the smallest power of two strictly
greater than the request. -/
theorem claim_C6_counterexample :
    2 < 2 ^ 63 + 3 ∧
    is_pow2 (2 ^ 63 + 3) = false ∧
    Nat.log2 (2 ^ 63 + 3) = 63 ∧
    next_pow2 (2 ^ 63 + 3) = 0 ∧
    next_pow2 (2 ^ 63 + 3) ≠ 2 ^ (Nat.log2 (2 ^ 63 + 3) + 1) := by
  have hp : is_pow2 (2 ^ 63 + 3) = false := not_pow2_of_between (by omega) (by norm_num)
  have hlog : Nat.log2 (2 ^ 63 + 3) = 63 := log2_eq_of (by omega) (by norm_num)
  have hov : next_pow2 (2 ^ 63 + 3) = 0 := next_pow2_overflow (by omega) (by norm_num)
  refine ⟨by norm_num, hp, hlog, hov, ?_⟩
  rw [hov, hlog]
  norm_num

/-- C6 (amended: the non-power-of-two branch is additionally restricted to
`requested < 2 ^ 63`, the requests whose rounded-up capacity fits the
64-bit size type; above that the shift wraps to 0, see the
counterexample): `capacity_for(requested)` returns 2 when `requested ≤ 2`,
returns `requested` unchanged when it is a power of two, and otherwise
returns `2 ^ (k + 1)` where `k = log2 requested` is the position of the
highest set bit — the smallest power of two strictly greater than
`requested`; in particular 0, 1, 2 map to 2, 16 maps to 16 and 17 maps
to 32. -/
theorem claim_C6_capacity_for (z : Nat) (hz : z < 2 ^ 64) :
    (z ≤ 2 → next_pow2 z = 2) ∧
    (2 < z → is_pow2 z = true → next_pow2 z = z) ∧
    (2 < z → is_pow2 z = false → z < 2 ^ 63 →
      next_pow2 z = 2 ^ (Nat.log2 z + 1) ∧
      z.testBit (Nat.log2 z) = true ∧
      (∀ j, Nat.log2 z < j → z.testBit j = false) ∧
      z < 2 ^ (Nat.log2 z + 1) ∧
      (∀ m, z < 2 ^ m → Nat.log2 z + 1 ≤ m)) ∧
    next_pow2 0 = 2 ∧ next_pow2 1 = 2 ∧ next_pow2 2 = 2 ∧
    next_pow2 16 = 16 ∧ next_pow2 17 = 32 := by
  have h17 : next_pow2 17 = 32 := by
    have hlog : Nat.log2 17 = 4 := log2_eq_of (by norm_num) (by norm_num)
    rw [next_pow2_of_not_pow2 (by norm_num) (by decide) (by norm_num), hlog]
    norm_num
  refine ⟨?_, ?_, ?_, by decide, by decide, by decide, by decide, h17⟩
  · intro h2
    unfold next_pow2
    rw [if_pos h2]
  · intro h2 hp
    unfold next_pow2
    rw [if_neg (by omega), if_pos hp]
  · intro h2 hp hlt
    have hz0 : z ≠ 0 := by omega
    have hlog : Nat.log2 z < 63 := (Nat.log2_lt hz0).mpr hlt
    have hfit : (2 : Nat) ^ (Nat.log2 z + 1) < 2 ^ 64 :=
      Nat.pow_lt_pow_right (by norm_num) (by omega)
    refine ⟨?_, ?_, ?_, Nat.lt_log2_self, ?_⟩
    · rw [next_pow2_of_not_pow2 h2 hp hz, Nat.mod_eq_of_lt hfit]
    · exact testBit_of_le_of_lt (Nat.log2_self_le hz0) Nat.lt_log2_self
    · intro j hj
      apply Nat.testBit_lt_two_pow
      calc z < 2 ^ (Nat.log2 z + 1) := Nat.lt_log2_self
      _ ≤ 2 ^ j := Nat.pow_le_pow_right (by norm_num) (by omega)
    · intro m hm
      have := (Nat.log2_lt hz0).mpr hm
      omega

/-- C6 witness: the amended theorem applied at the concrete request 17. -/
theorem claim_C6_capacity_for_witness :
    (17 : Nat) < 2 ^ 64 ∧
    ((17 ≤ 2 → next_pow2 17 = 2) ∧
     (2 < 17 → is_pow2 17 = true → next_pow2 17 = 17) ∧
     (2 < 17 → is_pow2 17 = false → 17 < 2 ^ 63 →
       next_pow2 17 = 2 ^ (Nat.log2 17 + 1) ∧
       Nat.testBit 17 (Nat.log2 17) = true ∧
       (∀ j, Nat.log2 17 < j → Nat.testBit 17 j = false) ∧
       17 < 2 ^ (Nat.log2 17 + 1) ∧
       (∀ m, 17 < 2 ^ m → Nat.log2 17 + 1 ≤ m)) ∧
     next_pow2 0 = 2 ∧ next_pow2 1 = 2 ∧ next_pow2 2 = 2 ∧
     next_pow2 16 = 16 ∧ next_pow2 17 = 32) :=
  ⟨by norm_num, claim_C6_capacity_for 17 (by norm_num)⟩

/-- C4: in every state reachable under the single-producer/single-consumer
discipline, `read_available() + write_available() = capacity - 1` —
`compute_write_available` returns the complement of
`compute_read_available` (whatever value the latter computes), and in
reachable states that value is below the capacity. -/
theorem claim_C4_availability_invariant {α : Type} [Inhabited α]
    (cb : CircularBuffer α) (h : cb.Reachable) :
    cb.get_read_available + cb.get_write_available = cb.capacity - 1 := by
  have hv := CircularBuffer.reachable_valid h
  have hlt := CircularBuffer.get_read_available_lt cb hv
  obtain ⟨⟨n, hn, hlen⟩, -, -⟩ := hv
  have hpos : 0 < 2 ^ n := Nat.pos_pow_of_pos n (by norm_num)
  unfold CircularBuffer.get_read_available at hlt
  unfold CircularBuffer.get_write_available CircularBuffer.get_read_available
    CircularBuffer.compute_write_available
  simp only [CircularBuffer.capacity] at hlt ⊢
  omega

/-- C4 witness: the invariant applied to a freshly constructed buffer of
requested capacity 4. -/
theorem claim_C4_availability_invariant_witness :
    (CircularBuffer.construct Nat 4).get_read_available +
      (CircularBuffer.construct Nat 4).get_write_available =
      (CircularBuffer.construct Nat 4).capacity - 1 :=
  claim_C4_availability_invariant (CircularBuffer.construct Nat 4)
    (CircularBuffer.Reachable.init 4 (by norm_num))

/-- C10: in every reachable state of a constructed buffer the capacity is
at least 2, both heads lie in `[0, capacity)`, and every storage index
accessed by an `enqueue` or `dequeue` call issued from that state lies
within the bounds of the storage array. -/
theorem claim_C10_heads_and_accesses_in_bounds {α : Type} [Inhabited α]
    (cb : CircularBuffer α) (h : cb.Reachable) :
    2 ≤ cb.capacity ∧
    cb.read_head < cb.capacity ∧ cb.write_head < cb.capacity ∧
    (∀ size : Nat, ∀ i ∈ cb.dequeueAccessIndices size, i < cb.capacity) ∧
    (∀ size : Nat, ∀ i ∈ cb.enqueueAccessIndices size, i < cb.capacity) := by
  obtain ⟨⟨n, hn, hlen⟩, hr, hw⟩ := CircularBuffer.reachable_valid h
  have hpos : (2 : Nat) ^ 1 ≤ 2 ^ n := Nat.pow_le_pow_right (by norm_num) hn
  have hcap : cb.capacity = cb.buffer.length := rfl
  refine ⟨by omega, by omega, by omega, ?_, ?_⟩
  · intro size i hi
    simp only [CircularBuffer.dequeueAccessIndices] at hi
    have hmask := Nat.and_le_right
      (n := cb.read_head + min size
        (CircularBuffer.compute_read_available cb.read_head cb.write_head cb.capacity))
      (m := cb.capacity - 1)
    split at hi
    · rw [List.mem_append] at hi
      rcases hi with hi | hi <;> rw [List.mem_range'_1] at hi <;> omega
    · rw [List.mem_range'_1] at hi
      omega
  · intro size i hi
    simp only [CircularBuffer.enqueueAccessIndices] at hi
    have hwa : min size
        (CircularBuffer.compute_write_available cb.read_head cb.write_head cb.capacity) ≤
        cb.capacity - 1 := by
      have := CircularBuffer.compute_write_available_lt cb.read_head cb.write_head
        cb.capacity (by omega)
      omega
    split at hi
    · rw [List.mem_append] at hi
      rcases hi with hi | hi <;> rw [List.mem_range'_1] at hi <;> omega
    · rw [List.mem_range'_1] at hi
      omega

/-- C10 witness: bounds applied to a reachable state of a capacity-4
buffer after one enqueue, checked at a concrete access. -/
theorem claim_C10_heads_and_accesses_in_bounds_witness :
    2 ≤ ((CircularBuffer.construct Nat 4).enqueue [7, 8] 2).state.capacity ∧
    ((CircularBuffer.construct Nat 4).enqueue [7, 8] 2).state.read_head <
      ((CircularBuffer.construct Nat 4).enqueue [7, 8] 2).state.capacity ∧
    ((CircularBuffer.construct Nat 4).enqueue [7, 8] 2).state.write_head <
      ((CircularBuffer.construct Nat 4).enqueue [7, 8] 2).state.capacity ∧
    (∀ size : Nat, ∀ i ∈
      ((CircularBuffer.construct Nat 4).enqueue [7, 8] 2).state.dequeueAccessIndices size,
      i < ((CircularBuffer.construct Nat 4).enqueue [7, 8] 2).state.capacity) ∧
    (∀ size : Nat, ∀ i ∈
      ((CircularBuffer.construct Nat 4).enqueue [7, 8] 2).state.enqueueAccessIndices size,
      i < ((CircularBuffer.construct Nat 4).enqueue [7, 8] 2).state.capacity) :=
  claim_C10_heads_and_accesses_in_bounds _
    (CircularBuffer.Reachable.enq _ [7, 8] 2 (CircularBuffer.Reachable.init 4 (by norm_num)))

/-- C2: `enqueue(src, n)` returns `min(n, write_available())`, advances
`write_head` by exactly the returned amount modulo the capacity, and the
elements copied into storage are `src`'s first `returned` elements, in
order, at the successive ring positions starting at the old write head;
when `write_available() = 0` the call returns 0 and leaves `write_head`
unchanged.  Stated for well-formed states (power-of-two capacity, heads
in range — what construction guarantees) and a source buffer holding the
`n` elements the call may read. -/
theorem claim_C2_enqueue_contract {α : Type} (cb : CircularBuffer α)
    (src : List α) (size : Nat) (hv : cb.Valid) (hsrc : size ≤ src.length) :
    (cb.enqueue src size).count = min size cb.get_write_available ∧
    (cb.enqueue src size).state.write_head =
      (cb.write_head + (cb.enqueue src size).count) % cb.capacity ∧
    (∀ i, i < (cb.enqueue src size).count →
      (cb.enqueue src size).state.buffer[(cb.write_head + i) % cb.capacity]? =
        src[i]?) ∧
    (cb.get_write_available = 0 →
      (cb.enqueue src size).count = 0 ∧
      (cb.enqueue src size).state.write_head = cb.write_head) := by
  obtain ⟨⟨n, hn, hlen⟩, hr, hw⟩ := hv
  have hcapeq : cb.capacity = 2 ^ n := hlen
  have hcapLen : cb.capacity = cb.buffer.length := rfl
  have hcle := CircularBuffer.enqueue_count_le cb src size
  have hminle : min size
      (CircularBuffer.compute_write_available cb.read_head cb.write_head cb.capacity) ≤
      size := Nat.min_le_left _ _
  have hcsrc : (cb.enqueue src size).count ≤ src.length := by
    rw [CircularBuffer.enqueue_count]
    omega
  have hhead : (cb.enqueue src size).state.write_head =
      (cb.write_head + (cb.enqueue src size).count) % cb.capacity := by
    rw [CircularBuffer.enqueue_state_write_head, hcapeq, and_two_pow_sub_one]
  refine ⟨rfl, hhead, ?_, ?_⟩
  · intro i hi
    rw [CircularBuffer.enqueue_state_buffer]
    by_cases hstr : cb.write_head + (cb.enqueue src size).count > cb.capacity
    · rw [if_pos hstr]
      -- the write span straddles the end of the storage array
      have hseg1 : (src.take (cb.capacity - cb.write_head)).length =
          cb.capacity - cb.write_head := by
        rw [List.length_take]
        omega
      have hseg2 : ((src.drop (cb.capacity - cb.write_head)).take
          ((cb.enqueue src size).count - (cb.capacity - cb.write_head))).length =
          (cb.enqueue src size).count - (cb.capacity - cb.write_head) := by
        rw [List.length_take, List.length_drop]
        omega
      have hlen1 : (CircularBuffer.listStore cb.buffer cb.write_head
          (src.take (cb.capacity - cb.write_head))).length = cb.buffer.length := by
        apply CircularBuffer.listStore_length
        omega
      by_cases hihi : i < cb.capacity - cb.write_head
      · -- high segment: position write_head + i, untouched by the low store
        have hmod : (cb.write_head + i) % cb.capacity = cb.write_head + i :=
          Nat.mod_eq_of_lt (by omega)
        rw [hmod, CircularBuffer.listStore_getElem_outside _ _ _ _
            (by rw [hseg2, hlen1]; omega) (by rw [hseg2]; omega),
          CircularBuffer.listStore_getElem_inside _ _ _ _
            (by rw [hseg1]; omega) (by omega) (by rw [hseg1]; omega),
          Nat.add_sub_cancel_left, List.getElem?_take, if_pos hihi]
      · -- low segment: position write_head + i wraps to i - cnt_hi
        have hmod : (cb.write_head + i) % cb.capacity =
            i - (cb.capacity - cb.write_head) := by
          rw [Nat.mod_eq_sub_mod (by omega), Nat.mod_eq_of_lt (by omega)]
          omega
        rw [hmod, CircularBuffer.listStore_getElem_inside _ _ _ _
            (by rw [hseg2, hlen1]; omega) (by omega) (by rw [hseg2]; omega),
          Nat.sub_zero, List.getElem?_take, if_pos (by omega), List.getElem?_drop]
        congr 1
        omega
    · rw [if_neg hstr]
      -- contiguous copy
      have hseg : (src.take (cb.enqueue src size).count).length =
          (cb.enqueue src size).count := by
        rw [List.length_take]
        omega
      have hmod : (cb.write_head + i) % cb.capacity = cb.write_head + i :=
        Nat.mod_eq_of_lt (by omega)
      rw [hmod, CircularBuffer.listStore_getElem_inside _ _ _ _
          (by rw [hseg]; omega) (by omega) (by rw [hseg]; omega),
        Nat.add_sub_cancel_left, List.getElem?_take, if_pos hi]
  · intro h0
    have hwa : CircularBuffer.compute_write_available cb.read_head cb.write_head
        cb.capacity = 0 := h0
    have hc0 : (cb.enqueue src size).count = 0 := by
      rw [CircularBuffer.enqueue_count, hwa]
      omega
    refine ⟨hc0, ?_⟩
    rw [hhead, hc0, Nat.add_zero, Nat.mod_eq_of_lt (by omega)]

/-- C2 witness: the contract applied to a fresh capacity-4 buffer and the
concrete source `[7, 8, 9]` with request 3. -/
theorem claim_C2_enqueue_contract_witness :
    ((CircularBuffer.construct Nat 4).enqueue [7, 8, 9] 3).count =
      min 3 (CircularBuffer.construct Nat 4).get_write_available ∧
    ((CircularBuffer.construct Nat 4).enqueue [7, 8, 9] 3).state.write_head =
      ((CircularBuffer.construct Nat 4).write_head +
        ((CircularBuffer.construct Nat 4).enqueue [7, 8, 9] 3).count) %
        (CircularBuffer.construct Nat 4).capacity ∧
    (∀ i, i < ((CircularBuffer.construct Nat 4).enqueue [7, 8, 9] 3).count →
      ((CircularBuffer.construct Nat 4).enqueue [7, 8, 9] 3).state.buffer[
          ((CircularBuffer.construct Nat 4).write_head + i) %
            (CircularBuffer.construct Nat 4).capacity]? =
        [7, 8, 9][i]?) ∧
    ((CircularBuffer.construct Nat 4).get_write_available = 0 →
      ((CircularBuffer.construct Nat 4).enqueue [7, 8, 9] 3).count = 0 ∧
      ((CircularBuffer.construct Nat 4).enqueue [7, 8, 9] 3).state.write_head =
        (CircularBuffer.construct Nat 4).write_head) :=
  claim_C2_enqueue_contract (CircularBuffer.construct Nat 4) [7, 8, 9] 3
    (CircularBuffer.valid_construct 4 (by norm_num)) (by norm_num)

theorem read_frames_pos {α : Type} [Inhabited α] (st : PlaybackState α)
    (frames : Nat) (lock_ok : Bool)
    (h : st.circ.get_read_available > frames * st.channels) :
    (st.read_frames frames lock_ok).1 =
      (st.circ.dequeue (frames * st.channels)).out ∧
    (st.read_frames frames lock_ok).2.circ =
      (st.circ.dequeue (frames * st.channels)).state := by
  simp only [PlaybackState.read_frames]
  rw [if_pos h]
  exact ⟨rfl, rfl⟩

theorem read_frames_neg {α : Type} [Inhabited α] (st : PlaybackState α)
    (frames : Nat) (lock_ok : Bool)
    (h : ¬ st.circ.get_read_available > frames * st.channels) :
    (st.read_frames frames lock_ok).1 =
      List.replicate (frames * st.channels) default ∧
    (st.read_frames frames lock_ok).2.circ = st.circ := by
  simp only [PlaybackState.read_frames]
  rw [if_neg h]
  exact ⟨rfl, rfl⟩

/-- C3 (amended: the dequeue branch is taken only when `read_available()`
STRICTLY exceeds `frames × channels` — the source guard is
`read_available > data_needed`, so at exact equality the callback
zero-fills instead of dequeuing): on every playback callback invocation,
if `read_available() > f × c` then exactly `f × c` samples are dequeued
into the output buffer (the ring's read head advances by that amount);
otherwise the entire output buffer is filled with zeros, no samples are
consumed, and `read_head` is unchanged. -/
theorem claim_C3_playback_callback {α : Type} [Inhabited α]
    (st : PlaybackState α) (frames : Nat) (lock_ok : Bool)
    (hv : st.circ.Valid) :
    (st.circ.get_read_available > frames * st.channels →
      (st.read_frames frames lock_ok).1 =
        (st.circ.dequeue (frames * st.channels)).out ∧
      (st.circ.dequeue (frames * st.channels)).count = frames * st.channels ∧
      (st.read_frames frames lock_ok).2.circ =
        (st.circ.dequeue (frames * st.channels)).state ∧
      (st.read_frames frames lock_ok).2.circ.read_head =
        (st.circ.read_head + frames * st.channels) % st.circ.capacity) ∧
    (st.circ.get_read_available ≤ frames * st.channels →
      (st.read_frames frames lock_ok).1 =
        List.replicate (frames * st.channels) default ∧
      (st.read_frames frames lock_ok).2.circ = st.circ ∧
      (st.read_frames frames lock_ok).2.circ.read_head = st.circ.read_head) := by
  obtain ⟨⟨n, hn, hlen⟩, hr, hw⟩ := hv
  constructor
  · intro h
    have h' : frames * st.channels < CircularBuffer.compute_read_available
        st.circ.read_head st.circ.write_head st.circ.capacity := h
    have hcnt : (st.circ.dequeue (frames * st.channels)).count =
        frames * st.channels := by
      rw [CircularBuffer.dequeue_count]
      omega
    obtain ⟨h1, h2⟩ := read_frames_pos st frames lock_ok h
    refine ⟨h1, hcnt, h2, ?_⟩
    rw [h2, CircularBuffer.dequeue_state_read_head, hcnt]
    have hcap : st.circ.capacity = 2 ^ n := hlen
    rw [hcap, and_two_pow_sub_one]
  · intro h
    obtain ⟨h1, h2⟩ := read_frames_neg st frames lock_ok (by omega)
    exact ⟨h1, h2, by rw [h2]⟩

/-- C3 witness: the amended theorem applied to a playback state holding a
capacity-4 ring that contains two samples, with a 2-frame mono request. -/
theorem claim_C3_playback_callback_witness :
    let st : PlaybackState Int :=
      { circ := ((CircularBuffer.construct Int 4).enqueue [5, 6] 2).state
        channels := 1
        io_counter := 0 }
    (st.circ.get_read_available > 2 * st.channels →
      (st.read_frames 2 false).1 = (st.circ.dequeue (2 * st.channels)).out ∧
      (st.circ.dequeue (2 * st.channels)).count = 2 * st.channels ∧
      (st.read_frames 2 false).2.circ = (st.circ.dequeue (2 * st.channels)).state ∧
      (st.read_frames 2 false).2.circ.read_head =
        (st.circ.read_head + 2 * st.channels) % st.circ.capacity) ∧
    (st.circ.get_read_available ≤ 2 * st.channels →
      (st.read_frames 2 false).1 = List.replicate (2 * st.channels) default ∧
      (st.read_frames 2 false).2.circ = st.circ ∧
      (st.read_frames 2 false).2.circ.read_head = st.circ.read_head) :=
  claim_C3_playback_callback _ 2 false
    (CircularBuffer.valid_enqueue _ [5, 6] 2
      (CircularBuffer.valid_construct 4 (by norm_num)))

/-- C3 counterexample — the claim as stated (with `≥`) fails at exact
equality: a capacity-4 ring holding exactly 2 samples, a callback
requesting 2 frames × 1 channel.  `read_available() = f × c = 2`, a
dequeue would return the samples `[5, 6]`, yet the code writes silence
`[0, 0]` and leaves the ring (and its read head) untouched, consuming
nothing instead of the claimed `f × c` samples. -/
theorem claim_C3_counterexample :
    (PlaybackState.mk ((CircularBuffer.construct Int 4).enqueue [5, 6] 2).state
        1 0).circ.get_read_available = 2 * 1 ∧
    ((PlaybackState.mk ((CircularBuffer.construct Int 4).enqueue [5, 6] 2).state
        1 0).circ.dequeue (2 * 1)).out = [5, 6] ∧
    ((PlaybackState.mk ((CircularBuffer.construct Int 4).enqueue [5, 6] 2).state
        1 0).read_frames 2 false).1 = [0, 0] ∧
    ((PlaybackState.mk ((CircularBuffer.construct Int 4).enqueue [5, 6] 2).state
        1 0).read_frames 2 false).2.circ =
      (PlaybackState.mk ((CircularBuffer.construct Int 4).enqueue [5, 6] 2).state
        1 0).circ := by
  decide

/-- C9: in the playback IO loop, a `readf` call that transfers fewer
frames than requested is followed by exactly one enqueue — of the partial
payload, `r × channels` samples — and then the loop terminates: the
events after the short read are precisely `[enq (r * channels)]`, so in
particular no further read ever occurs. -/
theorem claim_C9_short_read_flushes_once (channels frames : Nat)
    (avail : Nat → Bool) (reads : Nat → Nat) (fuel i k n r : Nat)
    (h : (pbLoop channels frames avail reads fuel i k)[n]? = some (PbEvent.read r))
    (hr : r < frames) :
    (pbLoop channels frames avail reads fuel i k).drop (n + 1) =
      [PbEvent.enq (r * channels)] ∧
    ∀ m r', n < m →
      (pbLoop channels frames avail reads fuel i k)[m]? ≠ some (PbEvent.read r') := by
  have hdrop : (pbLoop channels frames avail reads fuel i k).drop (n + 1) =
      [PbEvent.enq (r * channels)] := by
    induction fuel generalizing i k n with
    | zero => simp [pbLoop] at h
    | succ fuel ih =>
      by_cases ha : avail i
      · simp only [pbLoop] at h ⊢
        rw [if_pos ha] at h ⊢
        rcases n with _ | _ | m
        · simp only [List.getElem?_cons_zero, Option.some.injEq,
            PbEvent.read.injEq] at h
          subst h
          rw [if_pos hr]
          simp
        · simp at h
        · simp only [List.getElem?_cons_succ] at h
          by_cases hb : reads k < frames
          · rw [if_pos hb] at h
            simp at h
          · rw [if_neg hb] at h ⊢
            rcases m with _ | m
            · simp at h
            · simp only [List.getElem?_cons_succ] at h
              simp only [List.drop_succ_cons]
              exact ih (i + 1) (k + 1) m h
      · simp only [pbLoop] at h ⊢
        rw [if_neg ha] at h ⊢
        rcases n with _ | m
        · simp at h
        · simp only [List.getElem?_cons_succ] at h
          simp only [List.drop_succ_cons]
          exact ih (i + 1) k m h
  refine ⟨hdrop, ?_⟩
  intro m r' hm
  have hsplit : m = (n + 1) + (m - n - 1) := by omega
  rw [hsplit, ← List.getElem?_drop, hdrop]
  rcases m - n - 1 with _ | j <;> simp

/-- C9 witness: a run in which the first read is short (1 frame of the 2
requested, stereo): the trace is `[read 1, enq 2]`, the partial payload
is enqueued exactly once and nothing follows. -/
theorem claim_C9_short_read_flushes_once_witness :
    (pbLoop 2 2 (fun _ => true) (fun _ => 1) 3 0 0)[0]? =
      some (PbEvent.read 1) ∧ 1 < 2 ∧
    ((pbLoop 2 2 (fun _ => true) (fun _ => 1) 3 0 0).drop 1 =
        [PbEvent.enq 2] ∧
      ∀ m r', 0 < m →
        (pbLoop 2 2 (fun _ => true) (fun _ => 1) 3 0 0)[m]? ≠
          some (PbEvent.read r')) :=
  ⟨by decide, by decide,
    claim_C9_short_read_flushes_once 2 2 (fun _ => true) (fun _ => 1) 3 0 0 0 1
      (by decide) (by decide)⟩

/-- C8: in the capture IO loop, a `writef` call that transfers fewer
frames than requested ends the loop: the only event after the short
write is the single post-loop condition-variable wait — in particular no
dequeue and no further write is ever performed. -/
theorem claim_C8_short_write_terminates (buffer_len frames : Nat)
    (avail : Nat → Bool) (writes : Nat → Nat) (fuel i k n w : Nat)
    (h : (recLoop buffer_len frames avail writes fuel i k)[n]? =
      some (RecEvent.write w))
    (hw : w < frames) :
    (recLoop buffer_len frames avail writes fuel i k).drop (n + 1) =
      [RecEvent.wait] ∧
    ∀ m w', n < m →
      (recLoop buffer_len frames avail writes fuel i k)[m]? ≠
        some (RecEvent.write w') := by
  have hdrop : (recLoop buffer_len frames avail writes fuel i k).drop (n + 1) =
      [RecEvent.wait] := by
    induction fuel generalizing i k n with
    | zero => simp [recLoop] at h
    | succ fuel ih =>
      simp only [recLoop] at h ⊢
      by_cases ha : avail i
      · rw [if_pos ha] at h ⊢
        rcases n with _ | _ | _ | m
        · simp at h
        · simp at h
        · simp only [List.getElem?_cons_succ, List.getElem?_cons_zero,
            Option.some.injEq, RecEvent.write.injEq] at h
          subst h
          rw [if_pos hw]
          simp
        · simp only [List.getElem?_cons_succ] at h
          by_cases hb : writes k < frames
          · rw [if_pos hb] at h
            rcases m with _ | m <;> simp at h
          · rw [if_neg hb] at h ⊢
            simp only [List.drop_succ_cons]
            exact ih (i + 1) (k + 1) m h
      · rw [if_neg ha] at h ⊢
        rcases n with _ | m
        · simp at h
        · simp only [List.getElem?_cons_succ] at h
          simp only [List.drop_succ_cons]
          exact ih (i + 1) k m h
  refine ⟨hdrop, ?_⟩
  intro m w' hm
  have hsplit : m = (n + 1) + (m - n - 1) := by omega
  rw [hsplit, ← List.getElem?_drop, hdrop]
  rcases m - n - 1 with _ | j <;> simp

/-- C8 witness: a run whose guard holds once and whose first write is
short (1 frame of the 2 requested): the trace is
`[chk true, deq 4, write 1, wait]`; after the short write only the
post-loop wait remains. -/
theorem claim_C8_short_write_terminates_witness :
    (recLoop 4 2 (fun _ => true) (fun _ => 1) 3 0 0)[2]? =
      some (RecEvent.write 1) ∧ 1 < 2 ∧
    ((recLoop 4 2 (fun _ => true) (fun _ => 1) 3 0 0).drop 3 =
        [RecEvent.wait] ∧
      ∀ m w', 2 < m →
        (recLoop 4 2 (fun _ => true) (fun _ => 1) 3 0 0)[m]? ≠
          some (RecEvent.write w')) :=
  ⟨by decide, by decide,
    claim_C8_short_write_terminates 4 2 (fun _ => true) (fun _ => 1) 3 0 0 2 1
      (by decide) (by decide)⟩
